import Mathlib

/-! Shallow embedding of the usage-accounting core of the `sidebar` TUI
component of the cagent repository.  The repository carries the component in
the file `pkg/tui/components/sidebar/sidebar.go` together with two further
revisions of the same file; the two revisions referenced by the claims are
embedded here as the namespaces `SidebarGo` (the named file, which derives the
root agent's exclusive usage by subtraction) and `Part001` (the revision with
the legacy `usage` fallback, the per-session inclusive map and the
sum-of-sessions team totals).

Modelling choices, uniform across both embeddings:
- Go `int` counters are modelled as unbounded `Int`: the claims under study
  concern clamping and aggregation logic, not word-size overflow, and the
  specification types all counters as plain non-negative integers.
- The `float64` cost is modelled as an exact rational, following the
  specification's reading of cost as a non-negative decimal.
- Go maps (`map[string]*runtime.Usage`, `map[string]string`) are modelled as
  association lists whose keys are unique in every reachable state; an insert
  replaces the binding of its key.  Where the Go code iterates a map (whose
  order is unspecified) the embedding folds over the list, and determinism
  claims are stated as invariance under permutation of that list.
- `cloneUsage` is the identity under value semantics and is dropped; a nil
  `*runtime.Usage` is `Option.none`; the values stored in the session maps are
  never nil in the Go code, so map values are modelled as plain `Usage`.
- Rendering (lipgloss styling, `formatTokenCount`) is out of scope; a
  formatted session block is modelled by the triple of data that determines
  it: display label, usage snapshot, and active flag. -/

/-- Mirror of `runtime.Usage`: one token/cost snapshot. -/
@[ext]
structure Usage where
  inputTokens : Int
  outputTokens : Int
  contextLength : Int
  contextLimit : Int
  cost : ℚ
deriving DecidableEq

/-- The zero value `runtime.Usage\x7b\x7d`. -/
def Usage.zero : Usage := ⟨0, 0, 0, 0, 0⟩

/-- Mirror of `runtime.TokenUsageEvent` (the `AgentContext.AgentName` field is
flattened to `agentName`).  A nil event pointer is handled by the Go guard
`if event == nil \x7b return \x7d` before any state is touched, so the embedding
takes the event by value. -/
structure TokenUsageEvent where
  sessionID : String
  agentName : String
  selfUsage : Option Usage
  inclusiveUsage : Option Usage
  usage : Option Usage
deriving DecidableEq

/-- Association-list reading of a Go map lookup. -/
def alookup {α : Type} : List (String × α) → String → Option α
  | [], _ => none
  | p :: rest, k => if p.1 = k then some p.2 else alookup rest k

/-- Association-list reading of a Go map insert: the new binding replaces any
prior binding of the same key. -/
def upsert {α : Type} (l : List (String × α)) (k : String) (v : α) : List (String × α) :=
  (k, v) :: l.filter (fun p => p.1 ≠ k)

/-- The data determining one rendered session block: what `formatSessionBlock`
receives (label, snapshot, active highlight). -/
structure SessionRow where
  label : String
  usage : Usage
  isActive : Bool
deriving DecidableEq

namespace SidebarGo

/-- Mirror of `usageState` in `sidebar.go`. -/
@[ext]
structure UsageState where
  sessions : List (String × Usage)
  sessionAgents : List (String × String)
  rootInclusive : Option Usage
  rootSessionID : String
  rootAgentName : String
  activeSessionID : String
deriving DecidableEq

/-- The state allocated by `New()`: empty maps, zero strings, nil snapshot. -/
def initialState : UsageState := ⟨[], [], none, "", "", ""⟩

/-- Mirror of `(*model).SetTokenUsage` in `sidebar.go` (lines 80-107): root
name capture, active-session tracking, per-session self-usage storage, agent
name mapping, and the root-inclusive update (which re-records the root session
identifier whenever a session identifier is present). -/
def setTokenUsage (st : UsageState) (ev : TokenUsageEvent) : UsageState :=
  let root := if ev.agentName ≠ "" ∧ st.rootAgentName = "" then ev.agentName else st.rootAgentName
  let active := if ev.sessionID ≠ "" then ev.sessionID else st.activeSessionID
  let sessions :=
    match ev.selfUsage with
    | some u => if ev.sessionID ≠ "" then upsert st.sessions ev.sessionID u else st.sessions
    | none => st.sessions
  let agents :=
    if ev.agentName ≠ "" ∧ ev.sessionID ≠ "" then upsert st.sessionAgents ev.sessionID ev.agentName
    else st.sessionAgents
  let rootPair :=
    match ev.inclusiveUsage with
    | some u =>
      if ev.agentName = root then
        (some u, if ev.sessionID ≠ "" then ev.sessionID else st.rootSessionID)
      else (st.rootInclusive, st.rootSessionID)
    | none => (st.rootInclusive, st.rootSessionID)
  { sessions := sessions, sessionAgents := agents, rootInclusive := rootPair.1,
    rootSessionID := rootPair.2, rootAgentName := root, activeSessionID := active }

/-- Mirror of `subtractUsage` in `sidebar.go` (lines 408-428) on non-nil
arguments: sequential clamped subtraction of inputTokens, outputTokens and
cost, recomputation of contextLength, contextLimit untouched. -/
def subtractUsage (base delta : Usage) : Usage :=
  let i0 := base.inputTokens - delta.inputTokens
  let i := if i0 < 0 then 0 else i0
  let o0 := base.outputTokens - delta.outputTokens
  let o := if o0 < 0 then 0 else o0
  let c0 := base.cost - delta.cost
  let c := if c0 < 0 then 0 else c0
  { inputTokens := i, outputTokens := o, contextLength := i + o,
    contextLimit := base.contextLimit, cost := c }

/-- Mirror of `computeRootExclusiveUsage` in `sidebar.go` (lines 392-406):
nil when no root-inclusive snapshot exists, otherwise the inclusive snapshot
minus every stored non-root session snapshot (the map iteration is modelled as
a fold over the association list; the Go `usage == nil` skip is vacuous since
stored values are never nil). -/
def computeRootExclusiveUsage (st : UsageState) : Option Usage :=
  match st.rootInclusive with
  | none => none
  | some r =>
    some (st.sessions.foldl
      (fun acc p => if p.1 = st.rootSessionID then acc else subtractUsage acc p.2) r)

/-- Mirror of `formatSessionBlock` on a non-nil snapshot, stripped of string
rendering: the block is determined by the label, the snapshot and the active
flag. -/
def formatSessionBlock (agentName : String) (usage : Usage) (isActive : Bool) : SessionRow :=
  ⟨agentName, usage, isActive⟩

/-- Mirror of `rootSessionBlock` in `sidebar.go` (lines 378-390): empty when
the exclusive usage cannot be computed, otherwise a block labelled with the
root agent name, defaulting to the word `Root`. -/
def rootSessionBlock (st : UsageState) : Option SessionRow :=
  match computeRootExclusiveUsage st with
  | none => none
  | some exclusive =>
    let name := if st.rootAgentName = "" then "Root" else st.rootAgentName
    some (formatSessionBlock name exclusive (st.activeSessionID = st.rootSessionID))

/-- The per-id body of the loop in `sessionBreakdownLines` (lines 357-373 of
`sidebar.go`): skip ids with no stored snapshot, resolve the display name
(falling back to the id), and mark the active session. -/
def sessionRowFor (st : UsageState) (id : String) : Option SessionRow :=
  match alookup st.sessions id with
  | none => none
  | some usage =>
    let resolved := (alookup st.sessionAgents id).getD ""
    let agentName := if resolved = "" then id else resolved
    some (formatSessionBlock agentName usage (id = st.activeSessionID))

/-- Mirror of `sessionBreakdownLines` in `sidebar.go` (lines 340-376): nil when
the session map is empty; otherwise the root block (when available) followed by
one block per non-root session id in sorted order. -/
def sessionBreakdownLines (st : UsageState) : List SessionRow :=
  if st.sessions = [] then []
  else
    let ids := List.mergeSort (st.sessions.map (fun p => p.1))
    (rootSessionBlock st).toList ++
      ids.filterMap (fun id => if id = st.rootSessionID then none else sessionRowFor st id)

end SidebarGo

namespace Part001

/-- Mirror of `usageState` in the `part_001` revision, which adds the
per-session inclusive map. -/
@[ext]
structure UsageState where
  sessions : List (String × Usage)
  inclusive : List (String × Usage)
  sessionAgents : List (String × String)
  rootInclusive : Option Usage
  rootSessionID : String
  rootAgentName : String
  activeSessionID : String
deriving DecidableEq

/-- The state allocated by `New()` in the `part_001` revision. -/
def initialState : UsageState := ⟨[], [], [], none, "", "", ""⟩

/-- The legacy-fallback normalisation at the top of `SetTokenUsage` in
`part_001` (lines 87-97): when `selfUsage` or `inclusiveUsage` is missing and
the legacy `usage` field is present, the missing one is substituted by
`usage`. -/
def normalizedUsages (ev : TokenUsageEvent) : Option Usage × Option Usage :=
  let s := ev.selfUsage
  let i := ev.inclusiveUsage
  if (s = none ∨ i = none) ∧ ev.usage ≠ none then
    ((if s = none then ev.usage else s), (if i = none then ev.usage else i))
  else (s, i)

/-- Mirror of `(*model).SetTokenUsage` in `part_001` (lines 82-131): legacy
normalisation, root name capture, active-session tracking, self-usage storage
with inclusive fallback, inclusive-map storage, agent name mapping, and the
root-inclusive update. -/
def setTokenUsage (st : UsageState) (ev : TokenUsageEvent) : UsageState :=
  let selfU := (normalizedUsages ev).1
  let inclU := (normalizedUsages ev).2
  let root := if ev.agentName ≠ "" ∧ st.rootAgentName = "" then ev.agentName else st.rootAgentName
  let active := if ev.sessionID ≠ "" then ev.sessionID else st.activeSessionID
  let snapshot :=
    match selfU with
    | some u => some u
    | none => inclU
  let sessions :=
    if ev.sessionID ≠ "" then
      match snapshot with
      | some u => upsert st.sessions ev.sessionID u
      | none => st.sessions
    else st.sessions
  let inclusiveMap :=
    if ev.sessionID ≠ "" then
      match inclU with
      | some u => upsert st.inclusive ev.sessionID u
      | none => st.inclusive
    else st.inclusive
  let agents :=
    if ev.agentName ≠ "" ∧ ev.sessionID ≠ "" then upsert st.sessionAgents ev.sessionID ev.agentName
    else st.sessionAgents
  let rootPair :=
    match inclU with
    | some u =>
      if ev.agentName = root then
        (some u, if ev.sessionID ≠ "" then ev.sessionID else st.rootSessionID)
      else (st.rootInclusive, st.rootSessionID)
    | none => (st.rootInclusive, st.rootSessionID)
  { sessions := sessions, inclusive := inclusiveMap, sessionAgents := agents,
    rootInclusive := rootPair.1, rootSessionID := rootPair.2, rootAgentName := root,
    activeSessionID := active }

/-- The loop body of `aggregateSelfUsage` in `part_001` (lines 430-441):
additive counters, maximal context limit. -/
def mergeTotalsStep (total : Usage) (u : Usage) : Usage :=
  { inputTokens := total.inputTokens + u.inputTokens,
    outputTokens := total.outputTokens + u.outputTokens,
    contextLength := total.contextLength + u.contextLength,
    contextLimit := if u.contextLimit > total.contextLimit then u.contextLimit
      else total.contextLimit,
    cost := total.cost + u.cost }

/-- Mirror of `aggregateSelfUsage` in `part_001` (lines 425-443): nil for an
empty map, otherwise the fold of `mergeTotalsStep` over the stored snapshots
starting from the zero value (the `usage == nil` skip is vacuous since stored
values are never nil). -/
def aggregateSelfUsage (usages : List (String × Usage)) : Option Usage :=
  if usages = [] then none
  else some (usages.foldl (fun total p => mergeTotalsStep total p.2) Usage.zero)

/-- Mirror of `computeTeamTotals` in `part_001` (lines 335-342): the aggregate
of the per-session self usage, falling back to the root-inclusive snapshot. -/
def computeTeamTotals (st : UsageState) : Option Usage :=
  match aggregateSelfUsage st.sessions with
  | some totals => some totals
  | none => st.rootInclusive

/-- The totals value produced by `renderTotals` in `part_001` (lines 324-333):
`computeTeamTotals` coerced to the zero snapshot when nil, so callers always
receive a struct.  This is the spec-level `ComputeTeamTotals` operation. -/
def renderTotalsUsage (st : UsageState) : Usage :=
  (computeTeamTotals st).getD Usage.zero

end Part001

/-! Concrete fixtures used by witnesses and counterexamples. -/

/-- A small snapshot with distinct field values. -/
def usageA : Usage := ⟨100, 50, 150, 1000, 1⟩

/-- A second distinct snapshot. -/
def usageB : Usage := ⟨200, 100, 300, 2000, 2⟩

/-- A root-inclusive snapshot dominating `usageA + usageB` in every counter. -/
def usageIncl : Usage := ⟨1000, 500, 1500, 4000, 10⟩

/-- A ledger for the `part_001` revision holding two self-usage snapshots. -/
def c1StateSessions : Part001.UsageState := ⟨[("s1", usageA), ("s2", usageB)], [], [], none, "", "", "s2"⟩

/-- A `part_001` ledger with no self-usage snapshots but a root-inclusive one. -/
def c1StateInclusiveOnly : Part001.UsageState := ⟨[], [], [], some usageIncl, "root", "r1", ""⟩

/-- An empty `part_001` ledger. -/
def c1StateEmpty : Part001.UsageState := Part001.initialState

/-- A `sidebar.go` ledger with a root session and two children, the inclusive
snapshot dominating the children's sums. -/
def c2State : SidebarGo.UsageState :=
  ⟨[("r1", usageA), ("s1", ⟨10, 5, 15, 100, 1⟩), ("s2", ⟨20, 8, 28, 200, 2⟩)], [],
    some usageIncl, "r1", "root", "s1"⟩

/-- First root-named event: establishes the root identity with session `s1`. -/
def c3EventFirst : TokenUsageEvent := ⟨"s1", "root", none, some ⟨1, 0, 0, 0, 0⟩, none⟩

/-- Second root-named event carrying a different session identifier. -/
def c3EventSecond : TokenUsageEvent := ⟨"s2", "root", none, some ⟨2, 0, 0, 0, 0⟩, none⟩

/-- The ledger after the first root-named event. -/
def c3StateAfterFirst : SidebarGo.UsageState :=
  SidebarGo.setTokenUsage SidebarGo.initialState c3EventFirst

/-- A legacy-shaped event: only the combined `usage` field is populated. -/
def c4LegacyEvent : TokenUsageEvent := ⟨"s1", "root", none, none, some ⟨10, 5, 15, 0, 1⟩⟩

/-- A `sidebar.go` ledger used to exercise the breakdown ordering. -/
def c6State : SidebarGo.UsageState :=
  ⟨[("s2", usageB), ("s1", usageA)], [("s1", "alice")], some usageIncl, "r1", "root", "s1"⟩

/-- The same ledger with both association lists permuted. -/
def c6StateSessionsPermuted : List (String × Usage) := [("s1", usageA), ("s2", usageB)]

/-- An event carrying only an inclusive snapshot (no self usage, no legacy). -/
def c7InclusiveOnlyEvent : TokenUsageEvent := ⟨"s1", "", none, some usageA, none⟩

/-- An event carrying a self snapshot alongside a distinct inclusive one. -/
def c7SelfEvent : TokenUsageEvent := ⟨"s2", "", some usageA, some usageB, none⟩

/-- An anonymous event (empty agent name) carrying self and inclusive
snapshots for session `s1`; recorded against the fresh ledger it reaches the
root-inclusive branch because the empty agent name equals the unset root
name. -/
def c8AnonymousEvent : TokenUsageEvent := ⟨"s1", "", some ⟨10, 5, 15, 0, 1⟩, some ⟨20, 9, 29, 0, 2⟩, none⟩

/-- The ledger after `c8AnonymousEvent`: the root session is `s1`, the root
agent name is still empty, and a root-inclusive snapshot is present. -/
def c8State : SidebarGo.UsageState :=
  SidebarGo.setTokenUsage SidebarGo.initialState c8AnonymousEvent

/-- An anonymous inclusive report used against the fresh ledger. -/
def c10AnonymousEvent : TokenUsageEvent := ⟨"s1", "", none, some usageA, none⟩

/-! Helper lemmas about the association-list model of Go maps. -/

theorem alookup_upsert_self {α : Type} (l : List (String × α)) (k : String) (v : α) :
    alookup (upsert l k v) k = some v := by
  simp [alookup, upsert]

theorem upsert_idem {α : Type} (l : List (String × α)) (k : String) (v : α) :
    upsert (upsert l k v) k v = upsert l k v := by
  simp only [upsert, List.filter_cons]
  simp [List.filter_filter]

theorem mem_of_alookup_eq_some {α : Type} {l : List (String × α)} {k : String} {v : α}
    (h : alookup l k = some v) : (k, v) ∈ l := by
  induction l with
  | nil => simp [alookup] at h
  | cons p rest ih =>
    by_cases hp : p.1 = k
    · simp only [alookup, hp, if_pos] at h
      cases h
      have hpk : p = (k, p.2) := by
        calc p = (p.1, p.2) := rfl
          _ = (k, p.2) := by rw [hp]
      rw [← hpk]
      exact List.mem_cons_self p rest
    · simp only [alookup, hp, if_neg, not_false_iff] at h
      exact List.mem_cons_of_mem _ (ih h)

theorem alookup_eq_some_of_mem {α : Type} {l : List (String × α)} {k : String} {v : α}
    (hnd : (l.map Prod.fst).Nodup) (h : (k, v) ∈ l) : alookup l k = some v := by
  induction l with
  | nil => simp at h
  | cons p rest ih =>
    simp only [List.map_cons, List.nodup_cons] at hnd
    rcases List.mem_cons.mp h with h | h
    · rw [← h]
      simp [alookup]
    · have hp : p.1 ≠ k := by
        intro hk
        exact hnd.1 (by
          rw [hk]
          exact List.mem_map_of_mem Prod.fst h)
      simp only [alookup, hp, if_neg, not_false_iff]
      exact ih hnd.2 h

theorem alookup_eq_none_of_not_mem {α : Type} {l : List (String × α)} {k : String}
    (h : k ∉ l.map Prod.fst) : alookup l k = none := by
  induction l with
  | nil => rfl
  | cons p rest ih =>
    simp only [List.map_cons, List.mem_cons] at h
    push_neg at h
    have hp : p.1 ≠ k := fun hk => h.1 hk.symm
    simp only [alookup, hp, if_neg, not_false_iff]
    exact ih h.2

theorem not_mem_of_alookup_eq_none {α : Type} {l : List (String × α)} {k : String}
    (h : alookup l k = none) : k ∉ l.map Prod.fst := by
  induction l with
  | nil => simp
  | cons p rest ih =>
    by_cases hp : p.1 = k
    · simp [alookup, hp] at h
    · simp only [alookup, hp, if_neg, not_false_iff] at h
      simp only [List.map_cons, List.mem_cons]
      push_neg
      exact ⟨fun hk => hp hk.symm, ih h⟩

theorem alookup_perm {α : Type} {l₁ l₂ : List (String × α)} (k : String)
    (hnd : (l₁.map Prod.fst).Nodup) (hp : List.Perm l₁ l₂) :
    alookup l₁ k = alookup l₂ k := by
  cases h₁ : alookup l₁ k with
  | some v =>
    exact (alookup_eq_some_of_mem ((hp.map Prod.fst).nodup_iff.mp hnd)
      (hp.mem_iff.mp (mem_of_alookup_eq_some h₁))).symm
  | none =>
    cases h₂ : alookup l₂ k with
    | some v =>
      exact absurd ((hp.map Prod.fst).mem_iff.mpr
        (List.mem_map_of_mem Prod.fst (mem_of_alookup_eq_some h₂)))
        (not_mem_of_alookup_eq_none h₁)
    | none => rfl

/-! Arithmetic helpers for the clamped subtraction. -/

theorem if_lt_zero_eq_max {α : Type} [LinearOrder α] [Zero α] (x : α) :
    (if x < 0 then 0 else x) = max 0 x := by
  rcases lt_or_le x 0 with h | h
  · rw [if_pos h, max_eq_left h.le]
  · rw [if_neg (not_lt.mpr h), max_eq_right h]

theorem max_zero_sub_absorb {α : Type} [LinearOrderedAddCommGroup α] (x s : α) (h : 0 ≤ s) :
    max 0 (max 0 x - s) = max 0 (x - s) := by
  rcases le_or_lt 0 x with hx | hx
  · rw [max_eq_right hx]
  · rw [max_eq_left hx.le, zero_sub, max_eq_left (neg_nonpos.mpr h),
      max_eq_left (sub_nonpos.mpr (le_trans hx.le h))]

/-! Closed forms for the clamped-subtraction fold used by
`computeRootExclusiveUsage`. -/

theorem subtractUsage_inputTokens (b d : Usage) :
    (SidebarGo.subtractUsage b d).inputTokens = max 0 (b.inputTokens - d.inputTokens) := by
  show (if b.inputTokens - d.inputTokens < 0 then 0 else b.inputTokens - d.inputTokens) = _
  rw [if_lt_zero_eq_max]

theorem subtractUsage_outputTokens (b d : Usage) :
    (SidebarGo.subtractUsage b d).outputTokens = max 0 (b.outputTokens - d.outputTokens) := by
  show (if b.outputTokens - d.outputTokens < 0 then 0 else b.outputTokens - d.outputTokens) = _
  rw [if_lt_zero_eq_max]

theorem subtractUsage_contextLength (b d : Usage) :
    (SidebarGo.subtractUsage b d).contextLength =
      (SidebarGo.subtractUsage b d).inputTokens + (SidebarGo.subtractUsage b d).outputTokens := rfl

theorem subtractUsage_contextLimit (b d : Usage) :
    (SidebarGo.subtractUsage b d).contextLimit = b.contextLimit := rfl

theorem subtractUsage_cost (b d : Usage) :
    (SidebarGo.subtractUsage b d).cost = max 0 (b.cost - d.cost) := by
  show (if b.cost - d.cost < 0 then 0 else b.cost - d.cost) = _
  rw [if_lt_zero_eq_max]

theorem subtractUsage_eq (b d : Usage) :
    SidebarGo.subtractUsage b d =
      { inputTokens := max 0 (b.inputTokens - d.inputTokens),
        outputTokens := max 0 (b.outputTokens - d.outputTokens),
        contextLength := max 0 (b.inputTokens - d.inputTokens)
          + max 0 (b.outputTokens - d.outputTokens),
        contextLimit := b.contextLimit,
        cost := max 0 (b.cost - d.cost) } := by
  ext
  · exact subtractUsage_inputTokens b d
  · exact subtractUsage_outputTokens b d
  · rw [subtractUsage_contextLength, subtractUsage_inputTokens, subtractUsage_outputTokens]
  · rfl
  · exact subtractUsage_cost b d

theorem foldl_subtractUsage_closed (deltas : List Usage) (b : Usage)
    (h : ∀ d ∈ deltas, 0 ≤ d.inputTokens ∧ 0 ≤ d.outputTokens ∧ 0 ≤ d.cost) :
    deltas.foldl SidebarGo.subtractUsage b =
      if deltas = [] then b
      else
        { inputTokens := max 0 (b.inputTokens - (deltas.map Usage.inputTokens).sum),
          outputTokens := max 0 (b.outputTokens - (deltas.map Usage.outputTokens).sum),
          contextLength := max 0 (b.inputTokens - (deltas.map Usage.inputTokens).sum)
            + max 0 (b.outputTokens - (deltas.map Usage.outputTokens).sum),
          contextLimit := b.contextLimit,
          cost := max 0 (b.cost - (deltas.map Usage.cost).sum) } := by
  induction deltas generalizing b with
  | nil => rfl
  | cons d rest ih =>
    have hd := h d (List.mem_cons_self d rest)
    have hrest : ∀ d' ∈ rest, 0 ≤ d'.inputTokens ∧ 0 ≤ d'.outputTokens ∧ 0 ≤ d'.cost :=
      fun d' hd' => h d' (List.mem_cons_of_mem d hd')
    have hsin : 0 ≤ (rest.map Usage.inputTokens).sum :=
      List.sum_nonneg (by
        intro x hx
        rcases List.mem_map.mp hx with ⟨d', hd', rfl⟩
        exact (hrest d' hd').1)
    have hsout : 0 ≤ (rest.map Usage.outputTokens).sum :=
      List.sum_nonneg (by
        intro x hx
        rcases List.mem_map.mp hx with ⟨d', hd', rfl⟩
        exact (hrest d' hd').2.1)
    have hscost : 0 ≤ (rest.map Usage.cost).sum :=
      List.sum_nonneg (by
        intro x hx
        rcases List.mem_map.mp hx with ⟨d', hd', rfl⟩
        exact (hrest d' hd').2.2)
    rw [List.foldl_cons, ih (SidebarGo.subtractUsage b d) hrest,
      if_neg (List.cons_ne_nil d rest)]
    by_cases hr : rest = []
    · subst hr
      simp [subtractUsage_eq]
    · rw [if_neg hr]
      ext
      · simp only [subtractUsage_inputTokens, List.map_cons, List.sum_cons]
        rw [max_zero_sub_absorb _ _ hsin, sub_sub]
      · simp only [subtractUsage_outputTokens, List.map_cons, List.sum_cons]
        rw [max_zero_sub_absorb _ _ hsout, sub_sub]
      · simp only [subtractUsage_inputTokens, subtractUsage_outputTokens, List.map_cons,
          List.sum_cons]
        rw [max_zero_sub_absorb _ _ hsin, max_zero_sub_absorb _ _ hsout, sub_sub, sub_sub]
      · simp only [subtractUsage_contextLimit]
      · simp only [subtractUsage_cost, List.map_cons, List.sum_cons]
        rw [max_zero_sub_absorb _ _ hscost, sub_sub]

theorem foldl_skip_eq_foldl_filter (l : List (String × Usage)) (rid : String) (r : Usage) :
    l.foldl (fun acc p => if p.1 = rid then acc else SidebarGo.subtractUsage acc p.2) r =
      ((l.filter (fun p => p.1 ≠ rid)).map Prod.snd).foldl SidebarGo.subtractUsage r := by
  induction l generalizing r with
  | nil => rfl
  | cons p rest ih =>
    by_cases hp : p.1 = rid
    · simp [List.foldl_cons, hp, List.filter_cons, ih]
    · simp [List.foldl_cons, hp, List.filter_cons, ih]

theorem computeRootExclusiveUsage_eq_fold (st : SidebarGo.UsageState) (r : Usage)
    (h : st.rootInclusive = some r) :
    SidebarGo.computeRootExclusiveUsage st =
      some (((st.sessions.filter (fun p => p.1 ≠ st.rootSessionID)).map Prod.snd).foldl
        SidebarGo.subtractUsage r) := by
  simp only [SidebarGo.computeRootExclusiveUsage, h, foldl_skip_eq_foldl_filter]

/-! Closed forms for the aggregation fold used by `aggregateSelfUsage`. -/

theorem if_gt_eq_max {α : Type} [LinearOrder α] (a b : α) : (if b > a then b else a) = max a b := by
  rcases lt_or_le a b with h | h
  · rw [if_pos h, max_eq_right h.le]
  · rw [if_neg (not_lt.mpr h), max_eq_left h]

theorem foldl_mergeTotalsStep_closed (l : List (String × Usage)) (z : Usage) :
    l.foldl (fun total p => Part001.mergeTotalsStep total p.2) z =
      { inputTokens := z.inputTokens + (l.map (fun p => p.2.inputTokens)).sum,
        outputTokens := z.outputTokens + (l.map (fun p => p.2.outputTokens)).sum,
        contextLength := z.contextLength + (l.map (fun p => p.2.contextLength)).sum,
        contextLimit := (l.map (fun p => p.2.contextLimit)).foldl max z.contextLimit,
        cost := z.cost + (l.map (fun p => p.2.cost)).sum } := by
  induction l generalizing z with
  | nil => simp
  | cons p rest ih =>
    rw [List.foldl_cons, ih]
    ext
    · simp [Part001.mergeTotalsStep, add_assoc]
    · simp [Part001.mergeTotalsStep, add_assoc]
    · simp [Part001.mergeTotalsStep, add_assoc]
    · simp [Part001.mergeTotalsStep, if_gt_eq_max]
    · simp [Part001.mergeTotalsStep, add_assoc]

theorem foldl_max_bounds (l : List Int) (z : Int) :
    z ≤ l.foldl max z ∧ ∀ x ∈ l, x ≤ l.foldl max z := by
  induction l generalizing z with
  | nil => simp
  | cons a rest ih =>
    rcases ih (max z a) with ⟨h₁, h₂⟩
    refine ⟨le_trans (le_max_left z a) h₁, ?_⟩
    intro x hx
    rcases List.mem_cons.mp hx with hx | hx
    · subst hx
      exact le_trans (le_max_right z x) h₁
    · exact h₂ x hx

theorem foldl_max_mem (l : List Int) (z : Int) :
    l.foldl max z = z ∨ l.foldl max z ∈ l := by
  induction l generalizing z with
  | nil => left; rfl
  | cons a rest ih =>
    rw [List.foldl_cons]
    rcases ih (max z a) with h | h
    · rcases max_choice z a with hm | hm
      · left
        rw [h, hm]
      · right
        rw [h, hm]
        exact List.mem_cons_self a rest
    · right
      exact List.mem_cons_of_mem a h

/-! Claim theorems. -/

/-- Claim C5: for every pair of snapshots, `subtractUsage` clamps inputTokens,
outputTokens and cost at zero, recomputes contextLength as the
post-subtraction inputTokens plus outputTokens, and leaves contextLimit equal
to the base's contextLimit. -/
theorem c5_subtract_semantics (b d : Usage) :
    (SidebarGo.subtractUsage b d).inputTokens = max 0 (b.inputTokens - d.inputTokens) ∧
    (SidebarGo.subtractUsage b d).outputTokens = max 0 (b.outputTokens - d.outputTokens) ∧
    (SidebarGo.subtractUsage b d).cost = max 0 (b.cost - d.cost) ∧
    (SidebarGo.subtractUsage b d).contextLength =
      (SidebarGo.subtractUsage b d).inputTokens + (SidebarGo.subtractUsage b d).outputTokens ∧
    (SidebarGo.subtractUsage b d).contextLimit = b.contextLimit :=
  ⟨subtractUsage_inputTokens b d, subtractUsage_outputTokens b d, subtractUsage_cost b d,
    subtractUsage_contextLength b d, subtractUsage_contextLimit b d⟩

/-- Claim C10: while no event carrying a non-empty agent name has been
recorded (rootAgentName still empty), an event with an empty agent name and a
present inclusive snapshot overwrites rootInclusive with that snapshot, and
when it also carries a non-empty session identifier it sets rootSessionID to
it: the empty agent name compares equal to the unset root name. -/
theorem c10_anonymous_root_capture (st : SidebarGo.UsageState) (ev : TokenUsageEvent) (u : Usage)
    (hroot : st.rootAgentName = "") (han : ev.agentName = "")
    (hincl : ev.inclusiveUsage = some u) :
    (SidebarGo.setTokenUsage st ev).rootInclusive = some u ∧
    (ev.sessionID ≠ "" → (SidebarGo.setTokenUsage st ev).rootSessionID = ev.sessionID) := by
  constructor
  · simp [SidebarGo.setTokenUsage, hincl, han, hroot]
  · intro hsid
    simp [SidebarGo.setTokenUsage, hincl, han, hroot, hsid]

/-- Witness for claim C10 at the fresh ledger and a concrete anonymous
inclusive report. -/
theorem c10_anonymous_root_capture_witness :
    SidebarGo.initialState.rootAgentName = "" ∧
    c10AnonymousEvent.agentName = "" ∧
    c10AnonymousEvent.inclusiveUsage = some usageA ∧
    c10AnonymousEvent.sessionID ≠ "" ∧
    (SidebarGo.setTokenUsage SidebarGo.initialState c10AnonymousEvent).rootInclusive
      = some usageA ∧
    (SidebarGo.setTokenUsage SidebarGo.initialState c10AnonymousEvent).rootSessionID
      = c10AnonymousEvent.sessionID :=
  ⟨rfl, rfl, rfl, by decide,
    (c10_anonymous_root_capture SidebarGo.initialState c10AnonymousEvent usageA rfl rfl rfl).1,
    (c10_anonymous_root_capture SidebarGo.initialState c10AnonymousEvent usageA rfl rfl rfl).2
      (by decide)⟩

/-- Claim C4: in the `part_001` revision, an event whose selfUsage and
inclusiveUsage are absent but whose legacy usage field is present populates
both views with the legacy snapshot: the session's stored self-usage (when a
session identifier is present) and, when the event's agent name matches the
(post-capture) root agent name, rootInclusive. -/
theorem c4_legacy_fallback (st : Part001.UsageState) (ev : TokenUsageEvent) (u : Usage)
    (hself : ev.selfUsage = none) (hincl : ev.inclusiveUsage = none)
    (husage : ev.usage = some u) :
    (ev.sessionID ≠ "" →
      alookup (Part001.setTokenUsage st ev).sessions ev.sessionID = some u) ∧
    (ev.agentName = (Part001.setTokenUsage st ev).rootAgentName →
      (Part001.setTokenUsage st ev).rootInclusive = some u) := by
  have hn : Part001.normalizedUsages ev = (some u, some u) := by
    simp [Part001.normalizedUsages, hself, hincl, husage]
  constructor
  · intro hsid
    simp [Part001.setTokenUsage, hn, hsid, alookup_upsert_self]
  · intro hname
    simp only [Part001.setTokenUsage, hn] at hname ⊢
    rw [if_pos hname]

/-- Witness for claim C4 at the fresh ledger and a concrete legacy event. -/
theorem c4_legacy_fallback_witness :
    c4LegacyEvent.selfUsage = none ∧
    c4LegacyEvent.inclusiveUsage = none ∧
    c4LegacyEvent.usage = some ⟨10, 5, 15, 0, 1⟩ ∧
    c4LegacyEvent.sessionID ≠ "" ∧
    alookup (Part001.setTokenUsage Part001.initialState c4LegacyEvent).sessions
      c4LegacyEvent.sessionID = some ⟨10, 5, 15, 0, 1⟩ ∧
    (Part001.setTokenUsage Part001.initialState c4LegacyEvent).rootInclusive
      = some ⟨10, 5, 15, 0, 1⟩ :=
  ⟨rfl, rfl, rfl, by decide,
    (c4_legacy_fallback Part001.initialState c4LegacyEvent ⟨10, 5, 15, 0, 1⟩ rfl rfl rfl).1
      (by decide),
    (c4_legacy_fallback Part001.initialState c4LegacyEvent ⟨10, 5, 15, 0, 1⟩ rfl rfl rfl).2
      (by decide)⟩

/-- Claim C7: in the `part_001` revision, an event with a non-empty session
identifier stores under that key a copy of the (normalised) selfUsage
snapshot, or, when that is absent, a copy of the (normalised) inclusiveUsage
snapshot, replacing any prior value for that key. -/
theorem c7_self_usage_storage (st : Part001.UsageState) (ev : TokenUsageEvent)
    (hsid : ev.sessionID ≠ "") :
    (∀ u, (Part001.normalizedUsages ev).1 = some u →
      alookup (Part001.setTokenUsage st ev).sessions ev.sessionID = some u) ∧
    ((Part001.normalizedUsages ev).1 = none →
      ∀ u, (Part001.normalizedUsages ev).2 = some u →
        alookup (Part001.setTokenUsage st ev).sessions ev.sessionID = some u) := by
  constructor
  · intro u hu
    simp [Part001.setTokenUsage, hu, hsid, alookup_upsert_self]
  · intro hnone u hu
    simp [Part001.setTokenUsage, hnone, hu, hsid, alookup_upsert_self]

/-- Witness for claim C7: one event carrying only an inclusive snapshot (the
fallback branch) and one carrying a self snapshot next to a distinct inclusive
one (the primary branch). -/
theorem c7_self_usage_storage_witness :
    c7InclusiveOnlyEvent.sessionID ≠ "" ∧
    (Part001.normalizedUsages c7InclusiveOnlyEvent).1 = none ∧
    (Part001.normalizedUsages c7InclusiveOnlyEvent).2 = some usageA ∧
    alookup (Part001.setTokenUsage Part001.initialState c7InclusiveOnlyEvent).sessions
      c7InclusiveOnlyEvent.sessionID = some usageA ∧
    c7SelfEvent.sessionID ≠ "" ∧
    (Part001.normalizedUsages c7SelfEvent).1 = some usageA ∧
    alookup (Part001.setTokenUsage Part001.initialState c7SelfEvent).sessions
      c7SelfEvent.sessionID = some usageA :=
  ⟨by decide, rfl, rfl,
    (c7_self_usage_storage Part001.initialState c7InclusiveOnlyEvent (by decide)).2 rfl
      usageA rfl,
    by decide, rfl,
    (c7_self_usage_storage Part001.initialState c7SelfEvent (by decide)).1 usageA rfl⟩

/-- Counterexample to claim C3 as stated: after the first root-named event
establishes the root identity (rootAgentName `root`, rootSessionID `s1`), a
second event carrying the same agent name but a different session identifier
changes rootSessionID to `s2`. -/
theorem c3_counterexample :
    (SidebarGo.setTokenUsage SidebarGo.initialState c3EventFirst).rootAgentName = "root" ∧
    (SidebarGo.setTokenUsage SidebarGo.initialState c3EventFirst).rootSessionID = "s1" ∧
    (SidebarGo.setTokenUsage (SidebarGo.setTokenUsage SidebarGo.initialState c3EventFirst)
        c3EventSecond).rootSessionID = "s2" := by
  refine ⟨rfl, rfl, ?_⟩
  decide

/-- Claim C3 (amended): once rootAgentName is non-empty no subsequent event
changes it (in either revision); rootSessionID, however, is not sticky: it is
overwritten by exactly those events whose agent name equals the root agent
name and which carry an inclusive snapshot and a non-empty session
identifier. -/
theorem c3_root_identity :
    (∀ (st : SidebarGo.UsageState) (ev : TokenUsageEvent), st.rootAgentName ≠ "" →
      (SidebarGo.setTokenUsage st ev).rootAgentName = st.rootAgentName ∧
      (SidebarGo.setTokenUsage st ev).rootSessionID =
        (if ev.agentName = st.rootAgentName ∧ ev.inclusiveUsage.isSome ∧ ev.sessionID ≠ ""
          then ev.sessionID else st.rootSessionID)) ∧
    (∀ (st : Part001.UsageState) (ev : TokenUsageEvent), st.rootAgentName ≠ "" →
      (Part001.setTokenUsage st ev).rootAgentName = st.rootAgentName) := by
  constructor
  · intro st ev h
    have hcond : ¬ (ev.agentName ≠ "" ∧ st.rootAgentName = "") := by
      intro hc
      exact h hc.2
    constructor
    · simp [SidebarGo.setTokenUsage, hcond]
    · cases hincl : ev.inclusiveUsage with
      | none => simp [SidebarGo.setTokenUsage, hcond, hincl]
      | some u =>
        by_cases hname : ev.agentName = st.rootAgentName
        · by_cases hsid : ev.sessionID = ""
          · simp [SidebarGo.setTokenUsage, hcond, hincl, hname, hsid]
          · simp [SidebarGo.setTokenUsage, hcond, hincl, hname, hsid]
        · simp [SidebarGo.setTokenUsage, hcond, hincl, hname]
  · intro st ev h
    have hcond : ¬ (ev.agentName ≠ "" ∧ st.rootAgentName = "") := by
      intro hc
      exact h hc.2
    simp [Part001.setTokenUsage, hcond]

/-- Witness for the amended claim C3 at the ledger reached by the first
root-named event. -/
theorem c3_root_identity_witness :
    c3StateAfterFirst.rootAgentName ≠ "" ∧
    (SidebarGo.setTokenUsage c3StateAfterFirst c3EventSecond).rootAgentName
      = c3StateAfterFirst.rootAgentName ∧
    (SidebarGo.setTokenUsage c3StateAfterFirst c3EventSecond).rootSessionID
      = (if c3EventSecond.agentName = c3StateAfterFirst.rootAgentName ∧
          c3EventSecond.inclusiveUsage.isSome ∧ c3EventSecond.sessionID ≠ ""
          then c3EventSecond.sessionID else c3StateAfterFirst.rootSessionID) :=
  ⟨by decide,
    (c3_root_identity.1 c3StateAfterFirst c3EventSecond (by decide)).1,
    (c3_root_identity.1 c3StateAfterFirst c3EventSecond (by decide)).2⟩

/-- Counterexample to claim C8 as stated: a single anonymous event leaves the
ledger with an unknown root agent name, root session identifier `s1` and a
root-inclusive snapshot; the root row is then labelled with the word `Root`,
not with the literal root session identifier `s1` claimed by the
name-fallback chain. -/
theorem c8_counterexample :
    c8State.rootAgentName = "" ∧
    c8State.rootSessionID = "s1" ∧
    SidebarGo.rootSessionBlock c8State
      = some ⟨"Root", ⟨20, 9, 29, 0, 2⟩, true⟩ := by
  refine ⟨rfl, rfl, ?_⟩
  decide

/-- Claim C8 (amended): the root breakdown row's usage is the computed root
exclusive usage exactly when an inclusive snapshot exists and the row is
omitted otherwise (there is no fallback to the root's stored self-usage); its
label is the recorded root agent name when non-empty and the word `Root`
otherwise (there is no fallback to the root session identifier). -/
theorem c8_root_row (st : SidebarGo.UsageState) :
    (st.rootInclusive = none → SidebarGo.rootSessionBlock st = none) ∧
    (∀ r, st.rootInclusive = some r →
      ∃ u, SidebarGo.computeRootExclusiveUsage st = some u ∧
        SidebarGo.rootSessionBlock st =
          some ⟨if st.rootAgentName = "" then "Root" else st.rootAgentName, u,
            st.activeSessionID = st.rootSessionID⟩) := by
  constructor
  · intro h
    simp [SidebarGo.rootSessionBlock, SidebarGo.computeRootExclusiveUsage, h]
  · intro r h
    refine ⟨st.sessions.foldl
      (fun acc p => if p.1 = st.rootSessionID then acc else SidebarGo.subtractUsage acc p.2) r,
      ?_, ?_⟩
    · simp [SidebarGo.computeRootExclusiveUsage, h]
    · simp [SidebarGo.rootSessionBlock, SidebarGo.computeRootExclusiveUsage, h,
        SidebarGo.formatSessionBlock]

/-- Witness for the amended claim C8 at the post-anonymous-event ledger. -/
theorem c8_root_row_witness :
    c8State.rootInclusive = some ⟨20, 9, 29, 0, 2⟩ ∧
    (∃ u, SidebarGo.computeRootExclusiveUsage c8State = some u ∧
      SidebarGo.rootSessionBlock c8State =
        some ⟨if c8State.rootAgentName = "" then "Root" else c8State.rootAgentName, u,
          c8State.activeSessionID = c8State.rootSessionID⟩) :=
  ⟨rfl, (c8_root_row c8State).2 ⟨20, 9, 29, 0, 2⟩ rfl⟩

/-- Claim C1: the team-totals value exposed by `renderTotals` in the
`part_001` revision is the field-by-field sum of all stored self-usage
snapshots (inputTokens, outputTokens, contextLength and cost additive, the
contextLimit being the maximum across sessions) whenever at least one
snapshot is stored; with none stored it is the rootInclusive copy when
present, and the all-zero snapshot otherwise — never an absent value. -/
theorem c1_compute_team_totals :
    (∀ st : Part001.UsageState, st.sessions ≠ [] →
      (∀ p ∈ st.sessions, 0 ≤ p.2.contextLimit) →
      (Part001.renderTotalsUsage st).inputTokens
          = (st.sessions.map (fun p => p.2.inputTokens)).sum ∧
      (Part001.renderTotalsUsage st).outputTokens
          = (st.sessions.map (fun p => p.2.outputTokens)).sum ∧
      (Part001.renderTotalsUsage st).contextLength
          = (st.sessions.map (fun p => p.2.contextLength)).sum ∧
      (Part001.renderTotalsUsage st).cost
          = (st.sessions.map (fun p => p.2.cost)).sum ∧
      (∀ p ∈ st.sessions, p.2.contextLimit ≤ (Part001.renderTotalsUsage st).contextLimit) ∧
      (Part001.renderTotalsUsage st).contextLimit
          ∈ st.sessions.map (fun p => p.2.contextLimit)) ∧
    (∀ st : Part001.UsageState, st.sessions = [] → ∀ r, st.rootInclusive = some r →
      Part001.renderTotalsUsage st = r) ∧
    (∀ st : Part001.UsageState, st.sessions = [] → st.rootInclusive = none →
      Part001.renderTotalsUsage st = Usage.zero) := by
  refine ⟨?_, ?_, ?_⟩
  · intro st hne hlim
    have hval : Part001.renderTotalsUsage st
        = st.sessions.foldl (fun total p => Part001.mergeTotalsStep total p.2) Usage.zero := by
      simp [Part001.renderTotalsUsage, Part001.computeTeamTotals, Part001.aggregateSelfUsage, hne]
    rw [hval, foldl_mergeTotalsStep_closed]
    have hzl : Usage.zero.contextLimit = (0 : Int) := rfl
    refine ⟨by simp [Usage.zero], by simp [Usage.zero], by simp [Usage.zero],
      by simp [Usage.zero], ?_, ?_⟩
    · intro p hp
      exact (foldl_max_bounds (st.sessions.map (fun q => q.2.contextLimit))
        Usage.zero.contextLimit).2 _ (List.mem_map_of_mem _ hp)
    · show (st.sessions.map (fun q => q.2.contextLimit)).foldl max Usage.zero.contextLimit
        ∈ st.sessions.map (fun q => q.2.contextLimit)
      rcases foldl_max_mem (st.sessions.map (fun q => q.2.contextLimit))
          Usage.zero.contextLimit with h0 | hmem
      · rcases List.exists_mem_of_ne_nil st.sessions hne with ⟨p, hp⟩
        have hple := (foldl_max_bounds (st.sessions.map (fun q => q.2.contextLimit))
          Usage.zero.contextLimit).2 _ (List.mem_map_of_mem _ hp)
        rw [h0, hzl] at hple
        have hp0 : p.2.contextLimit = 0 := le_antisymm hple (hlim p hp)
        rw [h0, hzl, ← hp0]
        exact List.mem_map_of_mem _ hp
      · exact hmem
  · intro st hempty r hr
    simp [Part001.renderTotalsUsage, Part001.computeTeamTotals, Part001.aggregateSelfUsage,
      hempty, hr]
  · intro st hempty hr
    simp [Part001.renderTotalsUsage, Part001.computeTeamTotals, Part001.aggregateSelfUsage,
      hempty, hr]

/-- Witness for claim C1: a two-session ledger (sum branch), an
inclusive-only ledger (fallback branch) and the empty ledger (zero branch). -/
theorem c1_compute_team_totals_witness :
    c1StateSessions.sessions ≠ [] ∧
    (∀ p ∈ c1StateSessions.sessions, 0 ≤ p.2.contextLimit) ∧
    ((Part001.renderTotalsUsage c1StateSessions).inputTokens
        = (c1StateSessions.sessions.map (fun p => p.2.inputTokens)).sum ∧
      (Part001.renderTotalsUsage c1StateSessions).outputTokens
        = (c1StateSessions.sessions.map (fun p => p.2.outputTokens)).sum ∧
      (Part001.renderTotalsUsage c1StateSessions).contextLength
        = (c1StateSessions.sessions.map (fun p => p.2.contextLength)).sum ∧
      (Part001.renderTotalsUsage c1StateSessions).cost
        = (c1StateSessions.sessions.map (fun p => p.2.cost)).sum ∧
      (∀ p ∈ c1StateSessions.sessions,
        p.2.contextLimit ≤ (Part001.renderTotalsUsage c1StateSessions).contextLimit) ∧
      (Part001.renderTotalsUsage c1StateSessions).contextLimit
        ∈ c1StateSessions.sessions.map (fun p => p.2.contextLimit)) ∧
    Part001.renderTotalsUsage c1StateInclusiveOnly = usageIncl ∧
    Part001.renderTotalsUsage c1StateEmpty = Usage.zero :=
  ⟨by decide, by decide,
    c1_compute_team_totals.1 c1StateSessions (by decide) (by decide),
    c1_compute_team_totals.2.1 c1StateInclusiveOnly rfl usageIncl rfl,
    c1_compute_team_totals.2.2 c1StateEmpty rfl rfl⟩

/-- Claim C2: when a root-inclusive snapshot is present and its inputTokens
dominate the sum of the non-root sessions' self inputTokens (so no clamping
occurs), the computed root-exclusive inputTokens plus that sum equals the
inclusive inputTokens; and the exclusive result is absent exactly when the
inclusive snapshot is absent. -/
theorem c2_root_exclusive_consistency :
    (∀ (st : SidebarGo.UsageState) (r : Usage),
      st.rootInclusive = some r →
      (∀ p ∈ st.sessions, 0 ≤ p.2.inputTokens ∧ 0 ≤ p.2.outputTokens ∧ 0 ≤ p.2.cost) →
      ((st.sessions.filter (fun p => p.1 ≠ st.rootSessionID)).map
          (fun p => p.2.inputTokens)).sum ≤ r.inputTokens →
      ∃ u, SidebarGo.computeRootExclusiveUsage st = some u ∧
        u.inputTokens + ((st.sessions.filter (fun p => p.1 ≠ st.rootSessionID)).map
          (fun p => p.2.inputTokens)).sum = r.inputTokens) ∧
    (∀ st : SidebarGo.UsageState,
      SidebarGo.computeRootExclusiveUsage st = none ↔ st.rootInclusive = none) := by
  constructor
  · intro st r hincl hnn hle
    rw [computeRootExclusiveUsage_eq_fold st r hincl]
    refine ⟨_, rfl, ?_⟩
    have hd : ∀ d ∈ (st.sessions.filter (fun p => p.1 ≠ st.rootSessionID)).map Prod.snd,
        0 ≤ d.inputTokens ∧ 0 ≤ d.outputTokens ∧ 0 ≤ d.cost := by
      intro d hdm
      rcases List.mem_map.mp hdm with ⟨p, hp, rfl⟩
      exact hnn p (List.mem_filter.mp hp).1
    rw [foldl_subtractUsage_closed _ r hd]
    have hmm : (((st.sessions.filter (fun p => p.1 ≠ st.rootSessionID)).map Prod.snd).map
        Usage.inputTokens).sum
        = ((st.sessions.filter (fun p => p.1 ≠ st.rootSessionID)).map
          (fun p => p.2.inputTokens)).sum := by
      rw [List.map_map]
      rfl
    by_cases hdel : (st.sessions.filter (fun p => p.1 ≠ st.rootSessionID)).map Prod.snd = []
    · rw [if_pos hdel]
      have : (st.sessions.filter (fun p => p.1 ≠ st.rootSessionID)).map
          (fun p => p.2.inputTokens) = [] := by
        rcases List.map_eq_nil_iff.mp hdel with hfe
        rw [hfe]
        rfl
      rw [this]
      simp
    · rw [if_neg hdel]
      show max 0 (r.inputTokens - (((st.sessions.filter
          (fun p => p.1 ≠ st.rootSessionID)).map Prod.snd).map Usage.inputTokens).sum) + _ = _
      rw [hmm, max_eq_right (sub_nonneg.mpr hle), sub_add_cancel]
  · intro st
    cases h : st.rootInclusive with
    | none => simp [SidebarGo.computeRootExclusiveUsage, h]
    | some r => simp [SidebarGo.computeRootExclusiveUsage, h]

/-- Witness for claim C2 at a ledger with a root session, two children and a
dominating inclusive snapshot. -/
theorem c2_root_exclusive_consistency_witness :
    c2State.rootInclusive = some usageIncl ∧
    (∀ p ∈ c2State.sessions, 0 ≤ p.2.inputTokens ∧ 0 ≤ p.2.outputTokens ∧ 0 ≤ p.2.cost) ∧
    ((c2State.sessions.filter (fun p => p.1 ≠ c2State.rootSessionID)).map
        (fun p => p.2.inputTokens)).sum ≤ usageIncl.inputTokens ∧
    (∃ u, SidebarGo.computeRootExclusiveUsage c2State = some u ∧
      u.inputTokens + ((c2State.sessions.filter (fun p => p.1 ≠ c2State.rootSessionID)).map
        (fun p => p.2.inputTokens)).sum = usageIncl.inputTokens) :=
  ⟨rfl, by decide, by decide,
    c2_root_exclusive_consistency.1 c2State usageIncl rfl (by decide) (by decide)⟩

/-- Claim C9: in both revisions, recording the same event twice in immediate
succession leaves the ledger in exactly the state reached by recording it
once — every field update is last-write-wins. -/
theorem c9_idempotent_rereport :
    (∀ (st : SidebarGo.UsageState) (ev : TokenUsageEvent),
      SidebarGo.setTokenUsage (SidebarGo.setTokenUsage st ev) ev
        = SidebarGo.setTokenUsage st ev) ∧
    (∀ (st : Part001.UsageState) (ev : TokenUsageEvent),
      Part001.setTokenUsage (Part001.setTokenUsage st ev) ev
        = Part001.setTokenUsage st ev) := by
  constructor
  · intro st ev
    rcases ev with ⟨sid, an, selfU, inclU, usg⟩
    by_cases han : an = ""
    · by_cases hroot : st.rootAgentName = "" <;>
        cases selfU <;> cases inclU <;> by_cases hsid : sid = "" <;>
        simp_all [SidebarGo.setTokenUsage, upsert_idem]
    · by_cases hroot : st.rootAgentName = ""
      · cases selfU <;> cases inclU <;> by_cases hsid : sid = "" <;>
          simp_all [SidebarGo.setTokenUsage, upsert_idem]
      · by_cases heq : an = st.rootAgentName <;>
          cases selfU <;> cases inclU <;> by_cases hsid : sid = "" <;>
          simp_all [SidebarGo.setTokenUsage, upsert_idem]
  · intro st ev
    rcases ev with ⟨sid, an, selfU, inclU, usg⟩
    by_cases han : an = ""
    · by_cases hroot : st.rootAgentName = "" <;>
        cases selfU <;> cases inclU <;> cases usg <;> by_cases hsid : sid = "" <;>
        simp_all [Part001.setTokenUsage, Part001.normalizedUsages, upsert_idem]
    · by_cases hroot : st.rootAgentName = ""
      · cases selfU <;> cases inclU <;> cases usg <;> by_cases hsid : sid = "" <;>
          simp_all [Part001.setTokenUsage, Part001.normalizedUsages, upsert_idem]
      · by_cases heq : an = st.rootAgentName <;>
          cases selfU <;> cases inclU <;> cases usg <;> by_cases hsid : sid = "" <;>
          simp_all [Part001.setTokenUsage, Part001.normalizedUsages, upsert_idem]

/-- Skipping a key inside a `filterMap` is the same as filtering it away
first (the shape of the root-session skip in the breakdown loop). -/
theorem filterMap_skip_eq_filter {β : Type} (l : List String) (k : String)
    (f : String → Option β) :
    (l.filterMap fun id => if id = k then none else f id)
      = (l.filter (fun id => id ≠ k)).filterMap f := by
  induction l with
  | nil => rfl
  | cons d rest ih =>
    by_cases hd : d = k <;> simp [hd, List.filter_cons, List.filterMap_cons, ih]

/-- The clamped-subtraction fold is invariant under permutation of the
subtrahend list, provided the subtrahends are non-negative. -/
theorem foldl_subtract_perm (r : Usage) (d₁ d₂ : List Usage)
    (hperm : List.Perm d₁ d₂)
    (hnn : ∀ d ∈ d₁, 0 ≤ d.inputTokens ∧ 0 ≤ d.outputTokens ∧ 0 ≤ d.cost) :
    d₁.foldl SidebarGo.subtractUsage r = d₂.foldl SidebarGo.subtractUsage r := by
  have hnn₂ : ∀ d ∈ d₂, 0 ≤ d.inputTokens ∧ 0 ≤ d.outputTokens ∧ 0 ≤ d.cost :=
    fun d hd => hnn d (hperm.mem_iff.mpr hd)
  rw [foldl_subtractUsage_closed d₁ r hnn, foldl_subtractUsage_closed d₂ r hnn₂]
  by_cases h1 : d₁ = []
  · have h2 : d₂ = [] := by
      rw [h1] at hperm
      exact hperm.symm.eq_nil
    rw [if_pos h1, if_pos h2]
  · have h2 : d₂ ≠ [] := by
      intro h
      rw [h] at hperm
      exact h1 hperm.eq_nil
    rw [if_neg h1, if_neg h2, (hperm.map Usage.inputTokens).sum_eq,
      (hperm.map Usage.outputTokens).sum_eq, (hperm.map Usage.cost).sum_eq]

/-- `computeRootExclusiveUsage` does not depend on the storage order of the
session map (given non-negative stored counters) nor on the agent-name map. -/
theorem computeRootExclusiveUsage_perm (st : SidebarGo.UsageState)
    (l₂ : List (String × Usage)) (a₂ : List (String × String))
    (hps : List.Perm st.sessions l₂)
    (hnn : ∀ p ∈ st.sessions, 0 ≤ p.2.inputTokens ∧ 0 ≤ p.2.outputTokens ∧ 0 ≤ p.2.cost) :
    SidebarGo.computeRootExclusiveUsage { st with sessions := l₂, sessionAgents := a₂ }
      = SidebarGo.computeRootExclusiveUsage st := by
  have hpd : List.Perm
      ((st.sessions.filter (fun p => p.1 ≠ st.rootSessionID)).map Prod.snd)
      ((l₂.filter (fun p => p.1 ≠ st.rootSessionID)).map Prod.snd) :=
    (hps.filter _).map _
  have hnnd : ∀ d ∈ (st.sessions.filter (fun p => p.1 ≠ st.rootSessionID)).map Prod.snd,
      0 ≤ d.inputTokens ∧ 0 ≤ d.outputTokens ∧ 0 ≤ d.cost := by
    intro d hd
    rcases List.mem_map.mp hd with ⟨p, hp, rfl⟩
    exact hnn p (List.mem_filter.mp hp).1
  simp only [SidebarGo.computeRootExclusiveUsage]
  cases st.rootInclusive with
  | none => rfl
  | some r =>
    show some (l₂.foldl
        (fun acc p => if p.1 = st.rootSessionID then acc else SidebarGo.subtractUsage acc p.2) r)
      = some (st.sessions.foldl
        (fun acc p => if p.1 = st.rootSessionID then acc else SidebarGo.subtractUsage acc p.2) r)
    congr 1
    rw [foldl_skip_eq_foldl_filter, foldl_skip_eq_foldl_filter]
    exact (foldl_subtract_perm r _ _ hpd hnnd).symm

/-- Claim C6: the breakdown is empty for an empty session map; otherwise it is
the root row (when present) first, followed by the non-root rows generated in
strictly ascending session-id order; and the whole breakdown is invariant
under permutation of the underlying maps (the model of Go's unspecified map
iteration order), so repeated calls on an unmutated ledger agree. -/
theorem c6_breakdown_order_determinism :
    (∀ st : SidebarGo.UsageState, st.sessions = [] →
      SidebarGo.sessionBreakdownLines st = []) ∧
    (∀ st : SidebarGo.UsageState, (st.sessions.map Prod.fst).Nodup → st.sessions ≠ [] →
      ∃ ids : List String, List.Sorted (fun a b : String => a < b) ids ∧
        (∀ id ∈ ids, id ≠ st.rootSessionID) ∧
        SidebarGo.sessionBreakdownLines st =
          (SidebarGo.rootSessionBlock st).toList
            ++ ids.filterMap (SidebarGo.sessionRowFor st)) ∧
    (∀ (st : SidebarGo.UsageState) (l₂ : List (String × Usage)) (a₂ : List (String × String)),
      (st.sessions.map Prod.fst).Nodup → (st.sessionAgents.map Prod.fst).Nodup →
      List.Perm st.sessions l₂ → List.Perm st.sessionAgents a₂ →
      (∀ p ∈ st.sessions, 0 ≤ p.2.inputTokens ∧ 0 ≤ p.2.outputTokens ∧ 0 ≤ p.2.cost) →
      SidebarGo.sessionBreakdownLines { st with sessions := l₂, sessionAgents := a₂ }
        = SidebarGo.sessionBreakdownLines st) := by
  refine ⟨?_, ?_, ?_⟩
  · intro st h
    simp [SidebarGo.sessionBreakdownLines, h]
  · intro st hnd hne
    refine ⟨(List.mergeSort (st.sessions.map Prod.fst)).filter
      (fun id => id ≠ st.rootSessionID), ?_, ?_, ?_⟩
    · have hsorted : List.Sorted (fun a b : String => a ≤ b)
          (List.mergeSort (st.sessions.map Prod.fst)) := List.sorted_mergeSort' _
      have hnd2 : (List.mergeSort (st.sessions.map Prod.fst)).Nodup :=
        (List.mergeSort_perm _ _).nodup_iff.mpr hnd
      exact (List.Sorted.lt_of_le hsorted hnd2).sublist (List.filter_sublist _)
    · intro id hid
      have h2 := (List.mem_filter.mp hid).2
      simpa using h2
    · simp only [SidebarGo.sessionBreakdownLines, if_neg hne]
      rw [filterMap_skip_eq_filter]
  · intro st l₂ a₂ hnds hnda hps hpa hnn
    by_cases hne : st.sessions = []
    · have h₂ : l₂ = [] := by
        rw [hne] at hps
        exact hps.symm.eq_nil
      simp [SidebarGo.sessionBreakdownLines, hne, h₂]
    · have hne₂ : l₂ ≠ [] := by
        intro h
        rw [h] at hps
        exact hne hps.eq_nil
      have hids : List.mergeSort (l₂.map Prod.fst)
          = List.mergeSort (st.sessions.map Prod.fst) :=
        List.eq_of_perm_of_sorted
          ((List.mergeSort_perm _ _).trans ((hps.map Prod.fst).symm.trans
            (List.mergeSort_perm _ _).symm))
          (List.sorted_mergeSort' _) (List.sorted_mergeSort' _)
      have hex : SidebarGo.computeRootExclusiveUsage
          { st with sessions := l₂, sessionAgents := a₂ }
            = SidebarGo.computeRootExclusiveUsage st :=
        computeRootExclusiveUsage_perm st l₂ a₂ hps hnn
      have hrow : ∀ id, SidebarGo.sessionRowFor
          { st with sessions := l₂, sessionAgents := a₂ } id
            = SidebarGo.sessionRowFor st id := by
        intro id
        have h1 : alookup l₂ id = alookup st.sessions id := (alookup_perm id hnds hps).symm
        have h2 : alookup a₂ id = alookup st.sessionAgents id := (alookup_perm id hnda hpa).symm
        simp [SidebarGo.sessionRowFor, h1, h2]
      have hblock : SidebarGo.rootSessionBlock { st with sessions := l₂, sessionAgents := a₂ }
          = SidebarGo.rootSessionBlock st := by
        simp [SidebarGo.rootSessionBlock, hex]
      simp only [SidebarGo.sessionBreakdownLines]
      rw [if_neg hne₂, if_neg hne, hblock, hids]
      congr 1
      exact List.filterMap_congr (fun id hid => by simp [hrow])

/-- Witness for claim C6 at a two-session ledger and a permutation of its
session map. -/
theorem c6_breakdown_order_determinism_witness :
    (c6State.sessions.map Prod.fst).Nodup ∧
    c6State.sessions ≠ [] ∧
    (∃ ids : List String, List.Sorted (fun a b : String => a < b) ids ∧
      (∀ id ∈ ids, id ≠ c6State.rootSessionID) ∧
      SidebarGo.sessionBreakdownLines c6State =
        (SidebarGo.rootSessionBlock c6State).toList
          ++ ids.filterMap (SidebarGo.sessionRowFor c6State)) ∧
    (c6State.sessionAgents.map Prod.fst).Nodup ∧
    List.Perm c6State.sessions c6StateSessionsPermuted ∧
    (∀ p ∈ c6State.sessions, 0 ≤ p.2.inputTokens ∧ 0 ≤ p.2.outputTokens ∧ 0 ≤ p.2.cost) ∧
    SidebarGo.sessionBreakdownLines { c6State with sessions := c6StateSessionsPermuted, sessionAgents := c6State.sessionAgents }
      = SidebarGo.sessionBreakdownLines c6State :=
  ⟨by decide, by decide,
    c6_breakdown_order_determinism.2.1 c6State (by decide) (by decide),
    by decide, by decide, by decide,
    c6_breakdown_order_determinism.2.2 c6State c6StateSessionsPermuted c6State.sessionAgents
      (by decide) (by decide) (by decide) (List.Perm.refl _) (by decide)⟩
